import Mathlib

/-!
# KanbanFlow — verification of the task-reorder rule and its surrounding glue

Shallow embedding of the order-assignment rule used by the drag-and-drop
handlers, of the single-record task update performed by the storage layer,
of the cache-effect traces of the three client drag-end handlers, and of the
push-notification fan-out.  `order` values are JavaScript numbers used as a
dense sort key; they are embedded as `ℚ`.
-/

namespace KanbanFlow

/-! ## Data model -/

/-- A task record: the fields of the `tasks` schema that the reorder rule and
the storage update touch.  `order` is the fractional sort key within a
column. -/
structure Task where
  id : Nat
  columnId : Nat
  title : String
  order : ℚ
  updatedAt : Nat
deriving DecidableEq

/-! ## The order-assignment rule (`handleDragEnd`, KanbanBoard component)

From the source: the destination column's tasks are filtered and sorted
ascending by `order`; then

* if the column is empty, the new order is `0`;
* if the destination index is `0`, the new order is `destinationTasks[0].order / 2`;
* if the destination index is `≥ destinationTasks.length`, the new order is
  `destinationTasks[length - 1].order + 1`;
* otherwise the new order is the midpoint of the two neighbours' orders.

The rule reads only the `order` fields of the sorted destination list, so it
is embedded as a function of that list of orders. -/
def computeNewOrder (destOrders : List ℚ) (destIndex : Nat) : ℚ :=
  if destOrders.length = 0 then 0
  else if destIndex = 0 then destOrders.headD 0 / 2
  else if destIndex ≥ destOrders.length then destOrders.getLastD 0 + 1
  else (destOrders.getD (destIndex - 1) 0 + destOrders.getD destIndex 0) / 2

/-- A strictly ascending `order` sequence: re-sorting by `order` is
unambiguous exactly when the orders are pairwise distinct and increasing. -/
def StrictlySorted (l : List ℚ) : Prop :=
  l.Pairwise (· < ·)

theorem strictlySorted_iff_getElem (l : List ℚ) :
    StrictlySorted l ↔
      ∀ (i j : Nat) (hi : i < l.length) (hj : j < l.length), i < j → l[i] < l[j] := by
  unfold StrictlySorted
  rw [List.pairwise_iff_getElem]

theorem getD_eq_getElem_of_lt (l : List ℚ) (i : Nat) (h : i < l.length) (d : ℚ) :
    l.getD i d = l[i] :=
  List.getD_eq_getElem l d h

/-- In a nonempty list, `headD` is the element at index `0`. -/
theorem headD_eq_getElem_zero (l : List ℚ) (h : 0 < l.length) (d : ℚ) :
    l.headD d = l[0] := by
  cases l with
  | nil => simp at h
  | cons a t => rfl

/-- In a nonempty list, `getLastD` is the element at the last index. -/
theorem getLastD_eq_getElem_last (l : List ℚ) (h : 0 < l.length) (d : ℚ) :
    l.getLastD d = l[l.length - 1] := by
  cases l with
  | nil => simp at h
  | cons a t =>
    rw [List.getLastD_eq_getLast?, List.getLast?_eq_getElem?]
    simp

/-- C1: for a destination column whose orders are strictly increasing and an
insertion index `i` with `0 < i < length`, the rule assigns the midpoint
`(order[i-1] + order[i]) / 2`, a value strictly between `order[i-1]` and
`order[i]`; in particular, for orders `[0, 1, 2]` and index `1` the assigned
order is `0.5`. -/
theorem computeNewOrder_middle_strictly_between (l : List ℚ) (i : Nat)
    (hs : StrictlySorted l) (h0 : 0 < i) (hl : i < l.length) :
    computeNewOrder l i = (l.getD (i - 1) 0 + l.getD i 0) / 2 ∧
    l.getD (i - 1) 0 < computeNewOrder l i ∧
    computeNewOrder l i < l.getD i 0 ∧
    computeNewOrder [0, 1, 2] 1 = 1 / 2 := by
  have hlen : ¬ l.length = 0 := by omega
  have heq : computeNewOrder l i = (l.getD (i - 1) 0 + l.getD i 0) / 2 := by
    unfold computeNewOrder
    rw [if_neg hlen, if_neg (by omega), if_neg (by omega)]
  have hi1 : i - 1 < l.length := by omega
  have hneighbors : l.getD (i - 1) 0 < l.getD i 0 := by
    rw [getD_eq_getElem_of_lt l (i - 1) hi1, getD_eq_getElem_of_lt l i hl]
    exact (strictlySorted_iff_getElem l).mp hs (i - 1) i hi1 hl (by omega)
  refine ⟨heq, ?_, ?_, ?_⟩
  · rw [heq]; linarith
  · rw [heq]; linarith
  · norm_num [computeNewOrder]

theorem computeNewOrder_middle_strictly_between_witness :
    computeNewOrder [0, 1, 2] 1 =
      (List.getD [0, 1, 2] 0 0 + List.getD [0, 1, 2] 1 0) / 2 ∧
    List.getD [0, 1, 2] 0 0 < computeNewOrder [0, 1, 2] 1 ∧
    computeNewOrder [0, 1, 2] 1 < List.getD [0, 1, 2] 1 0 ∧
    computeNewOrder [0, 1, 2] 1 = 1 / 2 :=
  computeNewOrder_middle_strictly_between [0, 1, 2] 1
    (by simp [StrictlySorted]) (by norm_num) (by norm_num)

/-- C4: for a nonempty destination column with strictly increasing orders
whose minimum order is positive, inserting at index `0` assigns
`firstExisting.order / 2`, which is strictly below the previous minimum (and
below every existing order). -/
theorem computeNewOrder_front_below_min (l : List ℚ) (hne : l ≠ [])
    (hs : StrictlySorted l) (hpos : 0 < l.headD 0) :
    computeNewOrder l 0 = l.headD 0 / 2 ∧
    computeNewOrder l 0 < l.headD 0 ∧
    ∀ x ∈ l, computeNewOrder l 0 < x := by
  have hlen : 0 < l.length := List.length_pos.mpr hne
  have heq : computeNewOrder l 0 = l.headD 0 / 2 := by
    unfold computeNewOrder
    rw [if_neg (by omega), if_pos rfl]
  refine ⟨heq, by rw [heq]; linarith, ?_⟩
  intro x hx
  obtain ⟨j, hj, rfl⟩ := List.mem_iff_getElem.mp hx
  rw [heq, headD_eq_getElem_zero l hlen 0]
  have h0 : (0 : ℚ) < l[0] := by
    rw [headD_eq_getElem_zero l hlen 0] at hpos; exact hpos
  rcases Nat.eq_zero_or_pos j with rfl | hjpos
  · linarith
  · have h0j : l[0] < l[j] := (strictlySorted_iff_getElem l).mp hs 0 j hlen hj hjpos
    linarith

theorem computeNewOrder_front_below_min_witness :
    computeNewOrder [2, 3] 0 = ([2, 3] : List ℚ).headD 0 / 2 ∧
    computeNewOrder [2, 3] 0 < ([2, 3] : List ℚ).headD 0 ∧
    ∀ x ∈ ([2, 3] : List ℚ), computeNewOrder [2, 3] 0 < x :=
  computeNewOrder_front_below_min [2, 3] (by simp)
    (by simp [StrictlySorted]; norm_num) (by norm_num)

/-- C5: for a nonempty destination column with strictly increasing orders,
inserting at index `length` or beyond assigns `lastExisting.order + 1`, which
is strictly above the previous maximum (and above every existing order). -/
theorem computeNewOrder_end_above_max (l : List ℚ) (i : Nat) (hne : l ≠ [])
    (hs : StrictlySorted l) (hi : l.length ≤ i) :
    computeNewOrder l i = l.getLastD 0 + 1 ∧
    ∀ x ∈ l, x < computeNewOrder l i := by
  have hlen : 0 < l.length := List.length_pos.mpr hne
  have heq : computeNewOrder l i = l.getLastD 0 + 1 := by
    unfold computeNewOrder
    rw [if_neg (by omega), if_neg (by omega), if_pos hi]
  refine ⟨heq, ?_⟩
  intro x hx
  obtain ⟨j, hj, rfl⟩ := List.mem_iff_getElem.mp hx
  rw [heq, getLastD_eq_getElem_last l hlen 0]
  rcases Nat.lt_or_ge j (l.length - 1) with hjl | hjl
  · have := (strictlySorted_iff_getElem l).mp hs j (l.length - 1) hj (by omega) hjl
    linarith
  · have hj' : j = l.length - 1 := by omega
    subst hj'
    linarith

theorem computeNewOrder_end_above_max_witness :
    computeNewOrder [0, 1, 2] 3 = ([0, 1, 2] : List ℚ).getLastD 0 + 1 ∧
    ∀ x ∈ ([0, 1, 2] : List ℚ), x < computeNewOrder [0, 1, 2] 3 :=
  computeNewOrder_end_above_max [0, 1, 2] 3 (by simp)
    (by simp [StrictlySorted]) (by norm_num)

/-- C6: the rule assigns `0` in an empty destination column, and in a column
whose single task has order `0` a subsequent front insertion assigns
`0 / 2 = 0` again — equal to, not strictly below, the existing minimum. -/
theorem computeNewOrder_empty_and_zero_boundary :
    (∀ i, computeNewOrder [] i = 0) ∧
    computeNewOrder [(0 : ℚ)] 0 = 0 ∧
    computeNewOrder [(0 : ℚ)] 0 = ([(0 : ℚ)] : List ℚ).headD 0 ∧
    ¬ computeNewOrder [(0 : ℚ)] 0 < ([(0 : ℚ)] : List ℚ).headD 0 := by
  refine ⟨fun i => by simp [computeNewOrder], ?_, ?_, ?_⟩ <;>
    norm_num [computeNewOrder]

theorem computeNewOrder_empty_and_zero_boundary_witness :
    computeNewOrder [] 3 = 0 :=
  computeNewOrder_empty_and_zero_boundary.1 3

/-! ## Re-sorting after an insertion (the §3 invariant) -/

/-- Inserting `o` at index `i` keeps a strictly sorted list strictly sorted
whenever every element before the insertion point is below `o` and every
element at or after it is above `o`. -/
theorem pairwise_lt_insertIdx (l : List ℚ) (i : Nat) (o : ℚ)
    (hi : i ≤ l.length) (hp : StrictlySorted l)
    (h1 : ∀ (j : Nat) (hj : j < l.length), j < i → l[j] < o)
    (h2 : ∀ (j : Nat) (hj : j < l.length), i ≤ j → o < l[j]) :
    StrictlySorted (l.insertIdx i o) := by
  rw [strictlySorted_iff_getElem] at hp ⊢
  have hlen : (l.insertIdx i o).length = l.length + 1 := List.length_insertIdx i l hi
  intro a b ha hb hab
  rcases Nat.lt_trichotomy b i with hbi | hbi | hbi
  · have hbl : b < l.length := by omega
    have hal : a < l.length := by omega
    rw [List.getElem_insertIdx_of_lt l o i a (by omega) hal,
        List.getElem_insertIdx_of_lt l o i b hbi hbl]
    exact hp a b hal hbl hab
  · subst hbi
    have hal : a < l.length := by omega
    rw [List.getElem_insertIdx_of_lt l o b a hab hal,
        List.getElem_insertIdx_self l o b hi]
    exact h1 a hal hab
  · obtain ⟨k, rfl⟩ : ∃ k, b = i + k + 1 := ⟨b - i - 1, by omega⟩
    have hbk : i + k < l.length := by omega
    rw [List.getElem_insertIdx_add_succ l o i k hbk]
    rcases Nat.lt_trichotomy a i with hai | hai | hai
    · have hal : a < l.length := by omega
      rw [List.getElem_insertIdx_of_lt l o i a hai hal]
      exact hp a (i + k) hal hbk (by omega)
    · subst hai
      rw [List.getElem_insertIdx_self l o a hi]
      exact h2 (a + k) hbk (by omega)
    · obtain ⟨m, rfl⟩ : ∃ m, a = i + m + 1 := ⟨a - i - 1, by omega⟩
      have ham : i + m < l.length := by omega
      rw [List.getElem_insertIdx_add_succ l o i m ham]
      exact hp (i + m) (i + k) ham hbk (by omega)

/-- The reorder rule "places the moved task at index `i`": after inserting the
computed order at index `i`, the destination column's order sequence is still
strictly sorted, so re-sorting ascending by `order` reproduces exactly this
arrangement — the moved task at index `i` and every other task in its
previous relative position, with no sibling order rewritten. -/
def reinsertPlacesAt (l : List ℚ) (i : Nat) : Prop :=
  StrictlySorted (l.insertIdx i (computeNewOrder l i))

/-- C3 counterexample: a column whose single task has order `0` is strictly
sorted, yet inserting at index `0` computes order `0 / 2 = 0`, and the
resulting order sequence `[0, 0]` is not strictly sorted — sorting by `order`
cannot place the moved task strictly at index `0`. -/
theorem reinsert_zero_boundary_not_placed :
    StrictlySorted [(0 : ℚ)] ∧
    computeNewOrder [(0 : ℚ)] 0 = 0 ∧
    ¬ reinsertPlacesAt [(0 : ℚ)] 0 := by
  refine ⟨by simp [StrictlySorted], by norm_num [computeNewOrder], ?_⟩
  simp [reinsertPlacesAt, StrictlySorted, computeNewOrder]

/-- C3 (amended): for a destination column with strictly increasing orders,
provided a front insertion (`i = 0` into a nonempty column) only happens when
the existing minimum order is positive, inserting the computed order at index
`i` keeps the column strictly sorted by `order` — so re-sorting places the
moved task at index `i` with all other tasks in their previous relative
sequence and no sibling order renumbered.  At the degenerate boundary
(front insertion with minimum order `0`) the computed order collides with the
existing minimum and the placement is not guaranteed. -/
theorem reinsert_places_at_index (l : List ℚ) (i : Nat)
    (hs : StrictlySorted l)
    (hguard : i = 0 → l ≠ [] → 0 < l.headD 0) :
    reinsertPlacesAt l i := by
  unfold reinsertPlacesAt
  rcases eq_or_ne l [] with rfl | hne
  · cases i with
    | zero => simp [computeNewOrder, StrictlySorted]
    | succ n => simp [computeNewOrder, StrictlySorted]
  · have hlen : 0 < l.length := List.length_pos.mpr hne
    have hsg := (strictlySorted_iff_getElem l).mp hs
    rcases Nat.lt_or_ge l.length i with hgt | hle
    · rw [List.insertIdx_of_length_lt l _ i hgt]
      exact hs
    · apply pairwise_lt_insertIdx l i (computeNewOrder l i) hle hs
      · intro j hj hji
        have hipos : 0 < i := by omega
        rcases Nat.lt_or_ge i l.length with himid | hiend
        · have heq : computeNewOrder l i = (l[i - 1] + l[i]) / 2 := by
            unfold computeNewOrder
            rw [if_neg (by omega), if_neg (by omega), if_neg (by omega),
                getD_eq_getElem_of_lt l (i - 1) (by omega),
                getD_eq_getElem_of_lt l i himid]
          rw [heq]
          have hii : l[i - 1] < l[i] := hsg (i - 1) i (by omega) himid (by omega)
          rcases Nat.lt_or_ge j (i - 1) with hj1 | hj1
          · have := hsg j (i - 1) hj (by omega) hj1
            linarith
          · have hj2 : j = i - 1 := by omega
            subst hj2
            linarith
        · have heq : computeNewOrder l i = l[l.length - 1] + 1 := by
            unfold computeNewOrder
            rw [if_neg (by omega), if_neg (by omega), if_pos (by omega),
                getLastD_eq_getElem_last l hlen 0]
          rw [heq]
          rcases Nat.lt_or_ge j (l.length - 1) with hj1 | hj1
          · have := hsg j (l.length - 1) hj (by omega) hj1
            linarith
          · have hj2 : j = l.length - 1 := by omega
            subst hj2
            linarith
      · intro j hj hij
        rcases Nat.eq_zero_or_pos i with rfl | hipos
        · have hpos : 0 < l[0] := by
            have := hguard rfl hne
            rwa [headD_eq_getElem_zero l hlen 0] at this
          have heq : computeNewOrder l 0 = l[0] / 2 := by
            unfold computeNewOrder
            rw [if_neg (by omega), if_pos rfl, headD_eq_getElem_zero l hlen 0]
          rw [heq]
          rcases Nat.eq_zero_or_pos j with rfl | hjpos
          · linarith
          · have := hsg 0 j hlen hj hjpos
            linarith
        · have himid : i < l.length := by omega
          have heq : computeNewOrder l i = (l[i - 1] + l[i]) / 2 := by
            unfold computeNewOrder
            rw [if_neg (by omega), if_neg (by omega), if_neg (by omega),
                getD_eq_getElem_of_lt l (i - 1) (by omega),
                getD_eq_getElem_of_lt l i himid]
          rw [heq]
          have hii : l[i - 1] < l[i] := hsg (i - 1) i (by omega) himid (by omega)
          rcases Nat.lt_or_ge i j with hij2 | hij2
          · have := hsg i j himid hj hij2
            linarith
          · have hj2 : j = i := by omega
            subst hj2
            linarith

theorem reinsert_places_at_index_witness :
    reinsertPlacesAt [1, 2, 3] 1 :=
  reinsert_places_at_index [1, 2, 3] 1 (by simp [StrictlySorted]; norm_num)
    (by intro h; omega)

/-! ## Storage layer (`MemStorage.updateTask` / `DatabaseStorage.updateTask`)

The server keeps tasks in a map keyed by id (`tasksMap` in `MemStorage`; the
`tasks` table keyed by `id` in `DatabaseStorage`).  `updateTask` looks up the
record, merges the partial patch over it, stamps `updatedAt`, and writes the
single record back; an absent id yields `undefined` and no write. -/

/-- The task store: a map from task id to the stored record. -/
def TaskStore : Type := Nat → Option Task

/-- A `Partial<InsertTask>` patch restricted to the fields this development
tracks: a `none` field is absent from the patch and keeps its stored value. -/
structure TaskPatch where
  columnId : Option Nat
  title : Option String
  order : Option ℚ
deriving DecidableEq

/-- `MemStorage.updateTask` (storage.ts): `{ ...existingTask, ...task,
updatedAt: new Date() }` written back under the same id; `undefined` when the
id is absent.  `DatabaseStorage.updateTask` performs the same single-row
update (`set({ ...task, updatedAt }) where id = id`). -/
def updateTask (s : TaskStore) (id : Nat) (p : TaskPatch) (now : Nat) :
    TaskStore × Option Task :=
  match s id with
  | none => (s, none)
  | some existing =>
      let updated : Task :=
        { id := existing.id
          columnId := p.columnId.getD existing.columnId
          title := p.title.getD existing.title
          order := p.order.getD existing.order
          updatedAt := now }
      (fun j => if j = id then some updated else s j, some updated)

/-- `BoardProvider.moveTask`: the drag-and-drop persist is a single
`PUT /api/tasks/:taskId` carrying exactly `{ columnId, order }`, which the
route hands to `storage.updateTask`. -/
def moveTask (s : TaskStore) (taskId : Nat) (destinationColumnId : Nat)
    (newOrder : ℚ) (now : Nat) : TaskStore × Option Task :=
  updateTask s taskId
    { columnId := some destinationColumnId, title := none, order := some newOrder }
    now

/-- C2: a drag-and-drop move changes exactly one persisted record — the moved
task's `columnId` and `order` (plus its `updatedAt` stamp) in a single point
update — and the stored `order` of every other task is untouched. -/
theorem moveTask_single_point_update (s : TaskStore) (taskId c : Nat) (o : ℚ)
    (now : Nat) (t : Task) (h : s taskId = some t) :
    (moveTask s taskId c o now).1 taskId =
      some { id := t.id, columnId := c, title := t.title, order := o,
             updatedAt := now } ∧
    ∀ j, j ≠ taskId → (moveTask s taskId c o now).1 j = s j := by
  unfold moveTask updateTask
  rw [h]
  refine ⟨by simp, ?_⟩
  intro j hj
  simp [hj]

theorem moveTask_single_point_update_witness :
    (moveTask
        (fun j => if j = 1 then some ⟨1, 10, "t", 3, 0⟩ else
                  if j = 2 then some ⟨2, 10, "u", 4, 0⟩ else none)
        1 20 (5 / 2) 9).1 1 =
      some ⟨1, 20, "t", 5 / 2, 9⟩ ∧
    ∀ j, j ≠ 1 →
      (moveTask
          (fun j => if j = 1 then some ⟨1, 10, "t", 3, 0⟩ else
                    if j = 2 then some ⟨2, 10, "u", 4, 0⟩ else none)
          1 20 (5 / 2) 9).1 j =
        (fun j => if j = 1 then some ⟨1, 10, "t", 3, 0⟩ else
                  if j = 2 then some ⟨2, 10, "u", 4, 0⟩ else none) j :=
  moveTask_single_point_update
    (fun j => if j = 1 then some ⟨1, 10, "t", 3, 0⟩ else
              if j = 2 then some ⟨2, 10, "u", 4, 0⟩ else none)
    1 20 (5 / 2) 9 ⟨1, 10, "t", 3, 0⟩ rfl

/-- C10: `updateTask` on an absent id returns `undefined` and leaves every
stored record unchanged; on a present id it returns the single rewritten
record, in which exactly the supplied fields and the `updatedAt` stamp differ
from the stored task, and no other record changes. -/
theorem updateTask_absent_atomic_present_partial (s : TaskStore) (id : Nat)
    (p : TaskPatch) (now : Nat) :
    (s id = none →
      (updateTask s id p now).2 = none ∧
      ∀ j, (updateTask s id p now).1 j = s j) ∧
    (∀ t, s id = some t →
      ∃ u, (updateTask s id p now).2 = some u ∧
        (updateTask s id p now).1 id = some u ∧
        u.id = t.id ∧
        (p.columnId = none → u.columnId = t.columnId) ∧
        (∀ c, p.columnId = some c → u.columnId = c) ∧
        (p.title = none → u.title = t.title) ∧
        (∀ x, p.title = some x → u.title = x) ∧
        (p.order = none → u.order = t.order) ∧
        (∀ o, p.order = some o → u.order = o) ∧
        u.updatedAt = now ∧
        ∀ j, j ≠ id → (updateTask s id p now).1 j = s j) := by
  constructor
  · intro h
    unfold updateTask
    rw [h]
    exact ⟨rfl, fun j => rfl⟩
  · intro t h
    unfold updateTask
    rw [h]
    refine ⟨_, rfl, by simp, rfl, ?_, ?_, ?_, ?_, ?_, ?_, rfl, ?_⟩
    · intro hc; simp [hc]
    · intro c hc; simp [hc]
    · intro hc; simp [hc]
    · intro x hc; simp [hc]
    · intro hc; simp [hc]
    · intro o hc; simp [hc]
    · intro j hj; simp [hj]

theorem updateTask_absent_atomic_present_partial_witness :
    ((fun _ => (none : Option Task)) 7 = none →
      (updateTask (fun _ => none) 7 ⟨some 3, none, some 1⟩ 4).2 = none ∧
      ∀ j, (updateTask (fun _ => none) 7 ⟨some 3, none, some 1⟩ 4).1 j =
        (fun _ => (none : Option Task)) j) ∧
    (∀ t, (fun _ => (none : Option Task)) 7 = some t →
      ∃ u, (updateTask (fun _ => none) 7 ⟨some 3, none, some 1⟩ 4).2 = some u ∧
        (updateTask (fun _ => none) 7 ⟨some 3, none, some 1⟩ 4).1 7 = some u ∧
        u.id = t.id ∧
        ((some 3 : Option Nat) = none → u.columnId = t.columnId) ∧
        (∀ c, (some 3 : Option Nat) = some c → u.columnId = c) ∧
        ((none : Option String) = none → u.title = t.title) ∧
        (∀ x, (none : Option String) = some x → u.title = x) ∧
        ((some 1 : Option ℚ) = none → u.order = t.order) ∧
        (∀ o, (some 1 : Option ℚ) = some o → u.order = o) ∧
        u.updatedAt = 4 ∧
        ∀ j, j ≠ 7 →
          (updateTask (fun _ => none) 7 ⟨some 3, none, some 1⟩ 4).1 j =
            (fun _ => (none : Option Task)) j) :=
  updateTask_absent_atomic_present_partial (fun _ => none) 7 ⟨some 3, none, some 1⟩ 4

/-! ## The renumbering drag-end clients (tasks-by-column pages)

Two further client pages implement `handleDragEnd` over a tasks-by-column
record: they splice the moved task out of the source array, splice it into
the destination array at the drop index, rewrite every task's `order` in the
affected arrays to its array index, and persist
`{ columnId: destColumnId, order: destination.index }`. -/

/-- Renumbering pass: `tasks.map((task, idx) => ({ ...task, order: idx }))`. -/
def renumberOrders (ts : List Task) : List Task :=
  ts.enum.map (fun p => { p.2 with order := (p.1 : ℚ) })

/-- What a renumbering drag-end produces: one persisted write plus the new
local arrays of the two affected columns. -/
structure DragUpdate where
  persistedColumnId : Nat
  persistedOrder : ℚ
  newSourceTasks : List Task
  newDestTasks : List Task
deriving DecidableEq

/-- Cross-column branch of `handleDragEnd` in the first tasks-by-column page:
`sourceTasks.splice(source.index, 1)` removes the moved task,
`destTasks.splice(destination.index, 0, {...movedTask, columnId})` inserts it
(JS `splice` clamps an out-of-range index to the array length), both arrays
are renumbered to consecutive integer orders, and the persisted write is
`{ columnId: destColumnId, order: destination.index }`. -/
def handleDragEndCross_part008 (sourceTasks destTasks : List Task)
    (sourceIndex destIndex : Nat) (destColumnId : Nat) : Option DragUpdate :=
  match sourceTasks[sourceIndex]? with
  | none => none
  | some movedTask =>
      some { persistedColumnId := destColumnId
             persistedOrder := (destIndex : ℚ)
             newSourceTasks := renumberOrders (sourceTasks.eraseIdx sourceIndex)
             newDestTasks :=
               renumberOrders
                 (destTasks.insertIdx (min destIndex destTasks.length)
                   { movedTask with columnId := destColumnId }) }

/-- Cross-column branch of `handleDragEnd` in the second tasks-by-column page:
the same splice-and-renumber policy (it additionally guards a missing moved
task and defaults a missing destination array, which the `Option` result and
the explicit destination list already capture). -/
def handleDragEndCross_part011 (sourceTasks destTasks : List Task)
    (sourceIndex destIndex : Nat) (destColumnId : Nat) : Option DragUpdate :=
  match sourceTasks[sourceIndex]? with
  | none => none
  | some movedTask =>
      some { persistedColumnId := destColumnId
             persistedOrder := (destIndex : ℚ)
             newSourceTasks := renumberOrders (sourceTasks.eraseIdx sourceIndex)
             newDestTasks :=
               renumberOrders
                 (destTasks.insertIdx (min destIndex destTasks.length)
                   { movedTask with columnId := destColumnId }) }

/-- The moved task in the C7 drop scenario: dragged out of column 1. -/
def sampleMoved : Task := ⟨10, 1, "m", 0, 0⟩

/-- The destination column (id 2) in the C7 drop scenario: three tasks with
orders `[0, 1, 2]`. -/
def sampleDest : List Task :=
  [⟨1, 2, "a", 0, 0⟩, ⟨2, 2, "b", 1, 0⟩, ⟨3, 2, "c", 2, 0⟩]

/-- C7: the three client drag-end implementations follow different numeric
policies — on the same drop (destination orders `[0, 1, 2]`, drop index `1`)
the midpoint client persists the fractional order `1/2` while both
renumbering clients persist the integer drop index `1` and rewrite the
destination column's local orders to the consecutive integers
`[0, 1, 2, 3]`; since `1/2 ≠ 1`, the implementations are not equivalent. -/
theorem dragEnd_implementations_differ :
    computeNewOrder [0, 1, 2] 1 = 1 / 2 ∧
    (handleDragEndCross_part008 [sampleMoved] sampleDest 0 1 2).map
        DragUpdate.persistedOrder = some 1 ∧
    (handleDragEndCross_part008 [sampleMoved] sampleDest 0 1 2).map
        (fun u => u.newDestTasks.map Task.order) = some [0, 1, 2, 3] ∧
    (handleDragEndCross_part011 [sampleMoved] sampleDest 0 1 2).map
        DragUpdate.persistedOrder = some 1 ∧
    (handleDragEndCross_part011 [sampleMoved] sampleDest 0 1 2).map
        (fun u => u.newDestTasks.map Task.order) = some [0, 1, 2, 3] ∧
    (1 : ℚ) / 2 ≠ 1 := by
  refine ⟨by norm_num [computeNewOrder], ?_, ?_, ?_, ?_, by norm_num⟩ <;>
    simp [handleDragEndCross_part008, handleDragEndCross_part011,
      sampleMoved, sampleDest, renumberOrders, List.insertIdx,
      List.enum, List.enumFrom]

/-! ## Cache-effect traces of the three drag-end handlers -/

/-- Cache and network effects a drag-end handler performs, in program
order. -/
inductive CacheOp
  | setLocalTasks
  | persistUpdate
  | invalidateTasks
  | showErrorToast
deriving DecidableEq

/-- Outcome of the remote persist call. -/
inductive RemoteOutcome
  | ok
  | failed
deriving DecidableEq

/-- Effect trace of `handleDragEnd` in the first tasks-by-column page:
optimistic `setQueryData`, then `mutateAsync`; the catch invalidates the
tasks query. -/
def dragEndTrace_part008 : RemoteOutcome → List CacheOp
  | .ok => [.setLocalTasks, .persistUpdate]
  | .failed => [.setLocalTasks, .persistUpdate, .invalidateTasks]

/-- Effect trace of `handleDragEnd` in the second tasks-by-column page:
optimistic `setQueryData`, then `mutateAsync`; on success it forces a
consistency refetch; the catch invalidates and shows an error toast. -/
def dragEndTrace_part011 : RemoteOutcome → List CacheOp
  | .ok => [.setLocalTasks, .persistUpdate, .invalidateTasks]
  | .failed => [.setLocalTasks, .persistUpdate, .invalidateTasks, .showErrorToast]

/-- Effect trace of `handleDragEnd` in the KanbanBoard component together
with `BoardProvider.moveTask`: no local patch; `apiRequest` persists, then the
cache is invalidated on success; the catch only logs and shows an error
toast. -/
def dragEndTrace_part004 : RemoteOutcome → List CacheOp
  | .ok => [.persistUpdate, .invalidateTasks]
  | .failed => [.persistUpdate, .showErrorToast]

/-- A handler is optimistic-with-rollback when its trace starts with a local
cache patch and, when the persist fails, invalidates the cache to force a
refetch. -/
def OptimisticWithRollback (trace : RemoteOutcome → List CacheOp) : Prop :=
  (∀ r, (trace r).head? = some CacheOp.setLocalTasks) ∧
  CacheOp.invalidateTasks ∈ trace RemoteOutcome.failed

/-- C8 counterexample: the KanbanBoard drag-end handler is not optimistic
with rollback-by-refetch — it performs no local cache patch before the
persist and does not invalidate the cache when the persist fails. -/
theorem dragEnd_part004_not_optimistic_rollback :
    ¬ OptimisticWithRollback dragEndTrace_part004 := by
  intro h
  have h1 := h.1 RemoteOutcome.ok
  simp [dragEndTrace_part004] at h1

/-- C8 (amended): the two tasks-by-column drag-end handlers apply an
optimistic local update and invalidate the cache on persist failure; the
KanbanBoard handler does not — it performs no local patch, invalidates only
on success, and on failure merely shows an error toast. -/
theorem dragEnd_optimistic_rollback_status :
    OptimisticWithRollback dragEndTrace_part008 ∧
    OptimisticWithRollback dragEndTrace_part011 ∧
    CacheOp.setLocalTasks ∉ dragEndTrace_part004 RemoteOutcome.ok ∧
    CacheOp.setLocalTasks ∉ dragEndTrace_part004 RemoteOutcome.failed ∧
    CacheOp.invalidateTasks ∉ dragEndTrace_part004 RemoteOutcome.failed ∧
    CacheOp.invalidateTasks ∈ dragEndTrace_part004 RemoteOutcome.ok := by
  refine ⟨⟨fun r => ?_, by decide⟩, ⟨fun r => ?_, by decide⟩,
    by decide, by decide, by decide, by decide⟩ <;> cases r <;> rfl

/-! ## Push-notification fan-out (`sendNotificationToUser`, webpush.ts) -/

/-- Outcome of a single web-push delivery attempt to an endpoint: success, a
404/410 "gone" rejection, or any other failure. -/
inductive Delivery
  | success
  | gone
  | otherFailure
deriving DecidableEq

/-- A stored push subscription: its endpoint and crypto keys. -/
structure PushSub where
  endpoint : Nat
  p256dh : String
  auth : String
deriving DecidableEq

def isGone : Delivery → Bool
  | .gone => true
  | _ => false

def isSuccess : Delivery → Bool
  | .success => true
  | _ => false

/-- `sendNotificationToUser`: with no subscriptions it reports not sent; else
it attempts delivery to every subscription, deletes from storage (by
endpoint) each subscription whose attempt came back 404/410 "gone", and
reports `sent` as "some delivery succeeded".  `env` gives the push service's
response per endpoint. -/
def sendNotificationToUser (subs : List PushSub) (store : List PushSub)
    (env : Nat → Delivery) : Bool × List PushSub :=
  if subs.length = 0 then (false, store)
  else
    (subs.any (fun s => isSuccess (env s.endpoint)),
     store.filter (fun t =>
       ! subs.any (fun s => decide (s.endpoint = t.endpoint) && isGone (env s.endpoint))))

/-- C9: after the fan-out, no record with the endpoint of a "gone"
subscription remains in storage; every subscription whose delivery succeeded
is kept; and the reported `sent` flag is true exactly when at least one
delivery succeeded. -/
theorem sendNotification_gone_deleted_success_kept (subs store : List PushSub)
    (env : Nat → Delivery) :
    (∀ s ∈ subs, isGone (env s.endpoint) = true →
       ∀ t ∈ (sendNotificationToUser subs store env).2, t.endpoint ≠ s.endpoint) ∧
    (∀ s ∈ subs, isSuccess (env s.endpoint) = true → s ∈ store →
       s ∈ (sendNotificationToUser subs store env).2) ∧
    ((sendNotificationToUser subs store env).1 = true ↔
       ∃ s ∈ subs, isSuccess (env s.endpoint) = true) := by
  rcases eq_or_ne subs [] with rfl | hne
  · simp [sendNotificationToUser]
  · have hlen : ¬ subs.length = 0 := by
      simpa [List.length_eq_zero] using hne
    unfold sendNotificationToUser
    rw [if_neg hlen]
    refine ⟨?_, ?_, ?_⟩
    · intro s hs hgone t ht heq
      rw [List.mem_filter] at ht
      have h2 := ht.2
      rw [Bool.not_eq_true', List.any_eq_false] at h2
      have h3 := h2 s hs
      simp only [Bool.and_eq_true, decide_eq_true_eq, not_and] at h3
      exact absurd hgone (h3 heq.symm)
    · intro s hs hsucc hmem
      rw [List.mem_filter]
      refine ⟨hmem, ?_⟩
      rw [Bool.not_eq_true', List.any_eq_false]
      intro s' hs'
      simp only [Bool.and_eq_true, decide_eq_true_eq, not_and]
      intro heq
      rw [heq]
      cases h : env s.endpoint
      case success => simp [isGone]
      case gone =>
        rw [h] at hsucc
        simp [isSuccess] at hsucc
      case otherFailure => simp [isGone]
    · simp

theorem sendNotification_gone_deleted_success_kept_witness :
    ((sendNotificationToUser
        [PushSub.mk 1 "k" "a", PushSub.mk 2 "k" "a"]
        [PushSub.mk 1 "k" "a", PushSub.mk 2 "k" "a"]
        (fun e => if e = 2 then Delivery.success else Delivery.gone)).1 = true ↔
      ∃ s ∈ [PushSub.mk 1 "k" "a", PushSub.mk 2 "k" "a"],
        isSuccess ((fun e => if e = 2 then Delivery.success else Delivery.gone)
          s.endpoint) = true) :=
  (sendNotification_gone_deleted_success_kept
    [PushSub.mk 1 "k" "a", PushSub.mk 2 "k" "a"]
    [PushSub.mk 1 "k" "a", PushSub.mk 2 "k" "a"]
    (fun e => if e = 2 then Delivery.success else Delivery.gone)).2.2

end KanbanFlow
